import Mathlib

/-!
Verification of the real-time arbitrage core of the polybot trading system.

The Python source is shallowly embedded: dictionaries become association
lists (first-occurrence lookup, in-place update, append on new key, which is
exactly CPython dict semantics for the no-duplicate-key maps built here),
floats become rationals, and the monotonic clock becomes an explicit rational
parameter.  Price-level keys, which the source stores as fixed-width decimal
strings precisely so that distinct keys correspond to distinct numeric
values, are modelled by their numeric value in the rationals.
-/

/-! ## Association-list primitives (Python dict semantics) -/

def alGet {κ α : Type} [DecidableEq κ] (m : List (κ × α)) (k : κ) : Option α :=
  match m with
  | [] => none
  | e :: rest => if e.1 = k then some e.2 else alGet rest k

def alSet {κ α : Type} [DecidableEq κ] (m : List (κ × α)) (k : κ) (v : α) :
    List (κ × α) :=
  match m with
  | [] => [(k, v)]
  | e :: rest => if e.1 = k then (k, v) :: rest else e :: alSet rest k v

def alDel {κ α : Type} [DecidableEq κ] : List (κ × α) → κ → List (κ × α)
  | [], _ => []
  | e :: rest, k => if e.1 = k then alDel rest k else e :: alDel rest k

theorem alGet_alSet {κ α : Type} [DecidableEq κ] (m : List (κ × α)) (k k' : κ) (v : α) :
    alGet (alSet m k v) k' = if k = k' then some v else alGet m k' := by
  induction m with
  | nil =>
    by_cases h : k = k' <;> simp [alGet, alSet, h]
  | cons e rest ih =>
    by_cases he : e.1 = k
    · by_cases h : k = k'
      · simp [alGet, alSet, he, h]
      · have he' : ¬ e.1 = k' := by rw [he]; exact h
        simp [alGet, alSet, he, h, he']
    · by_cases h : e.1 = k'
      · have hk : ¬ k' = k := fun hkk => he (h.trans hkk)
        have hk' : ¬ k = k' := fun hkk => hk hkk.symm
        simp [alGet, alSet, he, h, hk, hk']
      · simp [alGet, alSet, he, h, ih]

theorem mem_alSet {κ α : Type} [DecidableEq κ] {m : List (κ × α)} {k : κ} {v : α}
    {e : κ × α} (h : e ∈ alSet m k v) : e = (k, v) ∨ e ∈ m := by
  induction m with
  | nil => simpa [alSet] using h
  | cons f rest ih =>
    by_cases hf : f.1 = k
    · simp only [alSet, hf, if_pos] at h
      rcases List.mem_cons.mp h with h | h
      · exact Or.inl h
      · exact Or.inr (List.mem_cons_of_mem f h)
    · simp only [alSet, hf, if_neg, not_false_iff] at h
      rcases List.mem_cons.mp h with h | h
      · exact Or.inr (h ▸ List.mem_cons_self f rest)
      · rcases ih h with h | h
        · exact Or.inl h
        · exact Or.inr (List.mem_cons_of_mem f h)

theorem mem_alDel {κ α : Type} [DecidableEq κ] {m : List (κ × α)} {k : κ}
    {e : κ × α} (h : e ∈ alDel m k) : e ∈ m := by
  induction m with
  | nil => simp [alDel] at h
  | cons f rest ih =>
    by_cases hf : f.1 = k
    · simp only [alDel, hf, if_pos] at h
      exact List.mem_cons_of_mem f (ih h)
    · simp only [alDel, hf, if_neg, not_false_iff] at h
      rcases List.mem_cons.mp h with h | h
      · exact h ▸ List.mem_cons_self f rest
      · exact List.mem_cons_of_mem f (ih h)

theorem alDel_of_alGet_none {κ α : Type} [DecidableEq κ] {m : List (κ × α)} {k : κ}
    (h : alGet m k = none) : alDel m k = m := by
  induction m with
  | nil => rfl
  | cons e rest ih =>
    by_cases he : e.1 = k
    · simp [alGet, he] at h
    · have h' : alGet rest k = none := by simpa [alGet, he] using h
      simp [alDel, he, ih h']

theorem alSet_alSet {κ α : Type} [DecidableEq κ] (m : List (κ × α)) (k : κ) (v w : α) :
    alSet (alSet m k v) k w = alSet m k w := by
  induction m with
  | nil => simp [alSet]
  | cons e rest ih =>
    by_cases he : e.1 = k
    · simp [alSet, he]
    · simp [alSet, he, ih]

/-- Python `str.lower()` restricted to the ASCII outcome labels the source
compares (charwise lowering). -/
def pyLower (s : String) : String := ⟨s.data.map Char.toLower⟩

/-- Python `str.upper()` restricted to the ASCII side labels the source
compares (charwise uppering). -/
def pyUpper (s : String) : String := ⟨s.data.map Char.toUpper⟩

/-! ## Book cache (src/apis/book_cache.py)

A price ladder is a map from price key to size; sizes and the numeric value
of the price keys are rationals.  `BookState` mirrors the Python class of the
same name (fields `bids`, `asks`, `updated_at`), `BookCache` its `_books`
dict.  The monotonic clock reading taken inside the Python methods is passed
as the explicit parameter `now`.
-/

abbrev PriceLadder := List (ℚ × ℚ)

structure BookState where
  bids : PriceLadder
  asks : PriceLadder
  updated_at : ℚ
deriving DecidableEq

/-- One entry of the `changes` list of a `price_change` event:
`{"price": str, "side": "BUY"|"SELL", "size": str}`. -/
structure DeltaChange where
  price : ℚ
  side : String
  size : ℚ
deriving DecidableEq

/-- `BookState.best_ask`: `None` on an empty ask map, otherwise the minimum
price over the entries with positive size.  (On a non-empty ask map whose
sizes are all non-positive the Python `min` raises; that unreachable-in-spec
case is modelled as `none`.) -/
def BookState.best_ask (bk : BookState) : Option ℚ :=
  if bk.asks = [] then none
  else ((bk.asks.filter (fun e => 0 < e.2)).map Prod.fst).min?

structure BookCache where
  books : List (String × BookState)
deriving DecidableEq

/-- The dict comprehension in `apply_snapshot`: keep the entries with
positive size, later duplicates overwriting earlier ones. -/
def snapLadder (entries : List (ℚ × ℚ)) : PriceLadder :=
  entries.foldl (fun m e => if 0 < e.2 then alSet m e.1 e.2 else m) []

/-- `BookCache.apply_snapshot`: replace both ladders of `token_id` with the
filtered snapshot and stamp `updated_at`; creates the book if absent
(`setdefault`). -/
def BookCache.apply_snapshot (c : BookCache) (token_id : String)
    (bids asks : List (ℚ × ℚ)) (now : ℚ) : BookCache :=
  ⟨alSet c.books token_id
    { bids := snapLadder bids, asks := snapLadder asks, updated_at := now }⟩

/-- One iteration of the `for change in changes` loop of `apply_delta`:
route to `bids` when the uppercased side is `"BUY"`, else to `asks`;
size zero deletes the price key, otherwise the size is stored. -/
def applyChange (bk : BookState) (ch : DeltaChange) : BookState :=
  if pyUpper ch.side = "BUY" then
    { bk with bids := if ch.size = 0 then alDel bk.bids ch.price
                      else alSet bk.bids ch.price ch.size }
  else
    { bk with asks := if ch.size = 0 then alDel bk.asks ch.price
                      else alSet bk.asks ch.price ch.size }

/-- `BookCache.apply_delta`: silently drop when no snapshot has been applied
for `token_id`; otherwise fold the changes over the book and stamp
`updated_at`. -/
def BookCache.apply_delta (c : BookCache) (token_id : String)
    (changes : List DeltaChange) (now : ℚ) : BookCache :=
  match alGet c.books token_id with
  | none => c
  | some bk =>
    ⟨alSet c.books token_id { changes.foldl applyChange bk with updated_at := now }⟩

/-- `BookCache.best_ask`: `None` for an unknown token. -/
def BookCache.best_ask (c : BookCache) (token_id : String) : Option ℚ :=
  match alGet c.books token_id with
  | none => none
  | some bk => bk.best_ask

/-- A write operation on the cache, as dispatched by the WebSocket event
handler (`"book"` events call `apply_snapshot`, `"price_change"` events call
`apply_delta`). -/
inductive CacheOp where
  | snapshot (token_id : String) (bids asks : List (ℚ × ℚ)) (now : ℚ)
  | delta (token_id : String) (changes : List DeltaChange) (now : ℚ)

def cacheStep (c : BookCache) : CacheOp → BookCache
  | .snapshot tok bids asks now => c.apply_snapshot tok bids asks now
  | .delta tok chs now => c.apply_delta tok chs now

/-- The cache state reached from the empty cache by a sequence of writes. -/
def runOps (ops : List CacheOp) : BookCache :=
  ops.foldl cacheStep ⟨[]⟩

/-! ## Arbitrage detector (src/strategies/arbitrage.py) -/

/-- `POLYMARKET_FEE = 0.02` (2% per leg). -/
def POLYMARKET_FEE : ℚ := 2 / 100

/-- `settings.ARB_MIN_SPREAD` default `0.02`. -/
def ARB_MIN_SPREAD : ℚ := 2 / 100

structure ArbitrageOpportunity where
  market_id : String
  question : String
  yes_token_id : String
  no_token_id : String
  yes_ask : ℚ
  no_ask : ℚ
  raw_spread : ℚ
  net_spread : ℚ
  expected_profit_pct : ℚ
deriving DecidableEq

/-- A token entry of the legacy `tokens` array of a market record. -/
structure TokenEntry where
  outcome : String
  token_id : String
deriving DecidableEq

/-- A Gamma market record, restricted to the fields the core reads.
`id` and `question` model `market.get("id", "")` and
`market.get("question", "Unknown")` with the defaults resolved at the
boundary; `clobTokenIds`/`outcomes` hold the JSON-decoded lists (the source
applies one `json.loads` step when the field arrives as a string);
`tokens` models `market.get("tokens", [])`. -/
structure Market where
  id : String
  question : String
  clobTokenIds : Option (List String)
  outcomes : Option (List String)
  tokens : List TokenEntry
deriving DecidableEq

/-- `check_arb_from_cache(market, yes_token_id, no_token_id, cache)`.
The config constants `POLYMARKET_FEE` and `settings.ARB_MIN_SPREAD` read by
the source are passed as the parameters `fee_rate` and `min_spread`. -/
def check_arb_from_cache (market : Market) (yes_token_id no_token_id : String)
    (cache : BookCache) (fee_rate min_spread : ℚ) : Option ArbitrageOpportunity :=
  match cache.best_ask yes_token_id, cache.best_ask no_token_id with
  | some yes_ask, some no_ask =>
    let raw_spread := 1 - yes_ask - no_ask
    let fee_cost := fee_rate * (yes_ask + no_ask)
    let net_spread := raw_spread - fee_cost
    if net_spread < min_spread then none
    else some
      { market_id := market.id
        question := market.question
        yes_token_id := yes_token_id
        no_token_id := no_token_id
        yes_ask := yes_ask
        no_ask := no_ask
        raw_spread := raw_spread
        net_spread := net_spread
        expected_profit_pct := net_spread / (yes_ask + no_ask + fee_cost) * 100 }
  | _, _ => none

/-! ## Token extraction and registry (src/apis/__init__.py, src/apis/ws_client.py) -/

/-- The dict comprehension
`{o.lower(): tid for o, tid in zip(outcomes_raw, clob_ids)}` followed by
`.get(key, "")`: the last pair whose lowercased outcome equals `key` wins. -/
def lastOutcomeMatch (pairs : List (String × String)) (key : String) : String :=
  pairs.foldl (fun acc p => if pyLower p.1 = key then p.2 else acc) ""

/-- The legacy-format fallback of `extract_token_ids`: first `tokens` entry
whose lowercased outcome is yes resp. no; `("", "")` when either is missing. -/
def extractLegacy (m : Market) : String × String :=
  match m.tokens.find? (fun t => pyLower t.outcome == "yes"),
        m.tokens.find? (fun t => pyLower t.outcome == "no") with
  | some y, some n => (y.token_id, n.token_id)
  | _, _ => ("", "")

/-- `extract_token_ids(market)`.  An absent or empty (falsy) `clobTokenIds`
falls back to the legacy `tokens` array; `outcomes` defaults to
`["Yes", "No"]`. -/
def extract_token_ids (m : Market) : String × String :=
  match m.clobTokenIds with
  | some clob_ids =>
    if clob_ids = [] then extractLegacy m
    else
      let outcomes_raw := m.outcomes.getD ["Yes", "No"]
      (lastOutcomeMatch (outcomes_raw.zip clob_ids) "yes",
       lastOutcomeMatch (outcomes_raw.zip clob_ids) "no")
  | none => extractLegacy m

/-- `TokenRegistry` state: `_token_to_market`, `_token_to_pair`,
`all_token_ids`, `_market_count`. -/
structure TokenRegistry where
  token_to_market : List (String × Market)
  token_to_pair : List (String × String)
  all_token_ids : List String
  market_count : Nat

def emptyRegistry : TokenRegistry :=
  { token_to_market := [], token_to_pair := [], all_token_ids := [], market_count := 0 }

/-- One iteration of the `for market in markets` loop of
`TokenRegistry.__init__`: records whose extracted pair has an empty (falsy)
component are skipped; otherwise both tokens are mapped to the market and to
each other. -/
def registerMarket (R : TokenRegistry) (m : Market) : TokenRegistry :=
  let p := extract_token_ids m
  if p.1 = "" ∨ p.2 = "" then R
  else
    { token_to_market := alSet (alSet R.token_to_market p.1 m) p.2 m
      token_to_pair := alSet (alSet R.token_to_pair p.1 p.2) p.2 p.1
      all_token_ids := R.all_token_ids ++ [p.1, p.2]
      market_count := R.market_count + 1 }

def buildRegistry (markets : List Market) : TokenRegistry :=
  markets.foldl registerMarket emptyRegistry

/-- `TokenRegistry.get_market`. -/
def TokenRegistry.get_market (R : TokenRegistry) (token_id : String) : Option Market :=
  alGet R.token_to_market token_id

/-- `TokenRegistry.get_pair` (the spec calls this lookup `get_sibling`). -/
def TokenRegistry.get_pair (R : TokenRegistry) (token_id : String) : Option String :=
  alGet R.token_to_pair token_id

/-! ## Feed-driven dispatcher (src/main.py, `_ws_arb_loop.on_price_update`)

The callback's decision pipeline is modelled as a pure function from the
registry, the cooldown map `_recently_acted`, the monotonic clock `now`, the
updated token and the cache to the updated cooldown map and an optional fire
decision (the dispatch: log, record cooldown, place both legs).  The gateway
interaction of a fire is modelled separately through `OrderResult`.
-/

/-- `COOLDOWN_S = 10.0`. -/
def COOLDOWN_S : ℚ := 10

/-- What a dispatch firing carries: the cooldown key and the two legs. -/
structure FireDecision where
  market_id : String
  yes_tid : String
  no_tid : String
  opp : ArbitrageOpportunity
deriving DecidableEq

/-- `on_price_update(token_id, cache)`: resolve market and pair (return on
miss, where Python falsiness also drops an empty-string pair id), resolve
YES/NO polarity from the market record's legacy `tokens` array (return when
either is missing), apply the cooldown debounce keyed by `market.get("id")`,
run the detector, and on an opportunity record the timestamp and fire. -/
def on_price_update (R : TokenRegistry) (fee_rate min_spread : ℚ)
    (recently_acted : List (String × ℚ)) (now : ℚ)
    (token_id : String) (cache : BookCache) :
    List (String × ℚ) × Option FireDecision :=
  match R.get_market token_id with
  | none => (recently_acted, none)
  | some market =>
    match R.get_pair token_id with
    | none => (recently_acted, none)
    | some pair_id =>
      if pair_id = "" then (recently_acted, none)
      else
        match market.tokens.find? (fun t => pyLower t.outcome == "yes"),
              market.tokens.find? (fun t => pyLower t.outcome == "no") with
        | some yes_token, some no_token =>
          if now - (alGet recently_acted market.id).getD 0 < COOLDOWN_S then
            (recently_acted, none)
          else
            match check_arb_from_cache market yes_token.token_id no_token.token_id
                cache fee_rate min_spread with
            | none => (recently_acted, none)
            | some opp =>
              (alSet recently_acted market.id now,
               some { market_id := market.id, yes_tid := yes_token.token_id,
                      no_tid := no_token.token_id, opp := opp })
        | _, _ => (recently_acted, none)

/-- One observed invocation of the callback: the clock reading, the token
whose book was just mutated, and the cache state at that moment. -/
structure WsEvent where
  now : ℚ
  token_id : String
  cache : BookCache

/-- Run the callback over a stream of events, threading the cooldown map,
and collect the dispatch firings with the event that caused each. -/
def runCallbacks (R : TokenRegistry) (fee_rate min_spread : ℚ)
    (recently_acted : List (String × ℚ)) :
    List WsEvent → List (WsEvent × FireDecision)
  | [] => []
  | e :: rest =>
    let r := on_price_update R fee_rate min_spread recently_acted e.now e.token_id e.cache
    (match r.2 with
     | some fd => [(e, fd)]
     | none => []) ++ runCallbacks R fee_rate min_spread r.1 rest

/-! ## Order results and leg compensation (src/execution/order_manager.py,
src/main.py lines 236-253)

`OrderResult` is restricted to the fields the dispatcher's compensation
logic reads: `success` and `order_id`.  A dry-run success carries
`order_id = none` (the dataclass default); a live placement carries the
gateway's `resp.get("orderID", "")`.  The remaining dataclass fields
(token, side, price, size, dry_run, error) do not influence compensation. -/

structure OrderResult where
  success : Bool
  order_id : Option String
deriving DecidableEq

/-- Python truthiness of `r.order_id`: `None` and `""` are falsy. -/
def pyTruthy : Option String → Bool
  | none => false
  | some s => s != ""

/-- The compensation branch after `asyncio.gather`: which legs get a
`cancel_order` call.  Leg 1 is cancelled iff it alone succeeded and its
`order_id` is truthy, symmetrically for leg 2. -/
def compensationCancels (r1 r2 : OrderResult) : Bool × Bool :=
  if r1.success && !r2.success && pyTruthy r1.order_id then (true, false)
  else if r2.success && !r1.success && pyTruthy r2.order_id then (false, true)
  else (false, false)

/-- A leg is live after the attempt iff its placement succeeded and no
cancellation was issued for it (gateway-side cancellation failure excluded
per the spec). -/
def legLive (r : OrderResult) (cancelled : Bool) : Bool :=
  r.success && !cancelled

/-! ## Risk ledger (src/execution/risk.py)

`_positions` is a `defaultdict(float)`; reading a missing key inserts an
explicit zero entry, which the embedding reproduces (`ddAccess`). -/

structure RiskManager where
  max_position : ℚ
  max_total : ℚ
  positions : List (String × ℚ)

/-- `self._positions[token_id]` on a `defaultdict(float)`: returns the
stored value, inserting a `0` entry when the key is missing. -/
def ddAccess (ps : List (String × ℚ)) (token_id : String) :
    ℚ × List (String × ℚ) :=
  match alGet ps token_id with
  | some v => (v, ps)
  | none => (0, ps ++ [(token_id, 0)])

/-- `RiskManager.total_exposure`: `sum(self._positions.values())`. -/
def RiskManager.total_exposure (r : RiskManager) : ℚ :=
  (r.positions.map Prod.snd).sum

/-- The position a token effectively holds (missing key reads as `0`). -/
def RiskManager.posOf (r : RiskManager) (token_id : String) : ℚ :=
  (alGet r.positions token_id).getD 0

/-- `RiskManager.check(token_id, usdc_amount)`: the `(allowed, reason)`
pair plus the ledger state after the call.  The Python reason strings are
formatted diagnostics; the embedding keeps fixed tags. -/
def RiskManager.check (r : RiskManager) (token_id : String) (usdc_amount : ℚ) :
    (Bool × String) × RiskManager :=
  if (ddAccess r.positions token_id).1 + usdc_amount > r.max_position then
    ((false, "Position limit"),
     { r with positions := (ddAccess r.positions token_id).2 })
  else if ({ r with positions := (ddAccess r.positions token_id).2 }
      : RiskManager).total_exposure + usdc_amount > r.max_total then
    ((false, "Total exposure limit"),
     { r with positions := (ddAccess r.positions token_id).2 })
  else
    ((true, ""),
     { r with positions := (ddAccess r.positions token_id).2 })

/-! ## Helper lemmas -/

theorem alGet_append_of_none {κ α : Type} [DecidableEq κ] {ps : List (κ × α)}
    {t : κ} (q : List (κ × α)) (h : alGet ps t = none) :
    alGet (ps ++ q) t = alGet q t := by
  induction ps with
  | nil => rfl
  | cons e rest ih =>
    by_cases he : e.1 = t
    · simp [alGet, he] at h
    · have h' : alGet rest t = none := by simpa [alGet, he] using h
      simpa [alGet, he] using ih h'

theorem alGet_append_of_some {κ α : Type} [DecidableEq κ] {ps : List (κ × α)}
    {t : κ} {w : α} (q : List (κ × α)) (h : alGet ps t = some w) :
    alGet (ps ++ q) t = some w := by
  induction ps with
  | nil => simp [alGet] at h
  | cons e rest ih =>
    by_cases he : e.1 = t
    · simp [alGet, he] at h ⊢; exact h
    · have h' := by simpa [alGet, he] using h
      simpa [alGet, he] using ih h'

/-- Claim C3: `apply_delta` on a token with no previously applied snapshot
leaves the cache completely unchanged — the token is not added and no book
state is created — and `best_ask` on that token still returns `None`. -/
theorem delta_unknown_token_noop (c : BookCache) (tok : String)
    (chs : List DeltaChange) (now : ℚ) (h : alGet c.books tok = none) :
    c.apply_delta tok chs now = c ∧
      (c.apply_delta tok chs now).best_ask tok = none := by
  have h1 : c.apply_delta tok chs now = c := by
    unfold BookCache.apply_delta; rw [h]
  refine ⟨h1, ?_⟩
  rw [h1]
  unfold BookCache.best_ask
  rw [h]

/-- Scenario S3 of the spec: a delta for unknown token `"Z1"` is ignored and
`best_ask("Z1")` returns `None`. -/
theorem delta_unknown_token_noop_witness :
    alGet (BookCache.mk []).books "Z1" = none ∧
    (BookCache.apply_delta ⟨[]⟩ "Z1" [⟨1/2, "SELL", 10⟩] 0 = ⟨[]⟩ ∧
     (BookCache.apply_delta ⟨[]⟩ "Z1" [⟨1/2, "SELL", 10⟩] 0).best_ask "Z1" = none) :=
  ⟨rfl, delta_unknown_token_noop ⟨[]⟩ "Z1" [⟨1/2, "SELL", 10⟩] 0 rfl⟩

/-- Claim C7: `apply_snapshot` is idempotent — applying the same snapshot
twice in succession (clock readings `t1`, then `t2` at the repeat) yields
exactly the state of the single application performed at `t2`; in particular
the same state when the clock has not advanced. -/
theorem apply_snapshot_idempotent (c : BookCache) (tok : String)
    (bids asks : List (ℚ × ℚ)) (t1 t2 : ℚ) :
    (c.apply_snapshot tok bids asks t1).apply_snapshot tok bids asks t2 =
      c.apply_snapshot tok bids asks t2 := by
  unfold BookCache.apply_snapshot
  exact congrArg BookCache.mk (alSet_alSet _ _ _ _)

/-- Claim C9: `RiskManager.check(token, amount)` returns not-allowed exactly
when `positions[token] + amount > max_position` or
`total_exposure + amount > max_total`, and the call leaves the ledger
unchanged: every token's position and the total exposure are the same after
the call (the `defaultdict` read may materialise an explicit zero entry,
which changes no position and no aggregate), so in particular a failed
check has no side effects. -/
theorem risk_check_spec (r : RiskManager) (tok : String) (amt : ℚ) :
    ((r.check tok amt).1.1 = false ↔
      r.posOf tok + amt > r.max_position ∨ r.total_exposure + amt > r.max_total)
    ∧ (∀ t, (r.check tok amt).2.posOf t = r.posOf t)
    ∧ (r.check tok amt).2.total_exposure = r.total_exposure := by
  have hdd1 : (ddAccess r.positions tok).1 = r.posOf tok := by
    unfold ddAccess RiskManager.posOf
    cases h : alGet r.positions tok <;> simp [h]
  have hddsum : ((ddAccess r.positions tok).2.map Prod.snd).sum =
      (r.positions.map Prod.snd).sum := by
    unfold ddAccess
    cases h : alGet r.positions tok <;> simp [h]
  have hddget : ∀ t, (alGet (ddAccess r.positions tok).2 t).getD 0 =
      (alGet r.positions t).getD 0 := by
    intro t
    unfold ddAccess
    cases h : alGet r.positions tok with
    | some v => simp [h]
    | none =>
      simp only [h]
      cases ht : alGet r.positions t with
      | some w => simp [alGet_append_of_some _ ht, ht]
      | none =>
        rw [alGet_append_of_none _ ht]
        by_cases htk : tok = t <;> simp [alGet, htk, ht]
  have h2nd : (r.check tok amt).2.positions = (ddAccess r.positions tok).2 := by
    unfold RiskManager.check
    split_ifs <;> rfl
  refine ⟨?_, ?_, ?_⟩
  · unfold RiskManager.check
    split_ifs with hA hB
    · exact ⟨fun _ => Or.inl (hdd1 ▸ hA), fun _ => rfl⟩
    · refine ⟨fun _ => Or.inr ?_, fun _ => rfl⟩
      have : ({ r with positions := (ddAccess r.positions tok).2 }
          : RiskManager).total_exposure = r.total_exposure := by
        unfold RiskManager.total_exposure
        exact hddsum
      rw [← this]
      exact hB
    · constructor
      · intro hfalse
        exact absurd hfalse (by simp)
      · intro hdisj
        exfalso
        rcases hdisj with h | h
        · exact hA (hdd1 ▸ h)
        · refine hB ?_
          have : ({ r with positions := (ddAccess r.positions tok).2 }
              : RiskManager).total_exposure = r.total_exposure := by
            unfold RiskManager.total_exposure
            exact hddsum
          rw [this]
          exact h
  · intro t
    unfold RiskManager.posOf
    rw [h2nd]
    exact hddget t
  · unfold RiskManager.total_exposure
    rw [h2nd]
    exact hddsum

/-- Claim C2 (counterexample): a dispatch attempt in which leg 1 succeeded
with an order id that is not truthy (the dataclass default `None` of a
dry-run success; a live placement stores `resp.get("orderID", "")`, falsy
when the response lacks the key) and leg 2 failed: exactly one leg
succeeded, yet the dispatcher issues no cancellation, and exactly one leg
is live after the attempt. -/
theorem single_leg_no_cancel_cex :
    (OrderResult.mk true none).success = true ∧
    (OrderResult.mk false none).success = false ∧
    compensationCancels ⟨true, none⟩ ⟨false, none⟩ = (false, false) ∧
    legLive ⟨true, none⟩ (compensationCancels ⟨true, none⟩ ⟨false, none⟩).1 = true ∧
    legLive ⟨false, none⟩ (compensationCancels ⟨true, none⟩ ⟨false, none⟩).2 = false := by
  refine ⟨rfl, rfl, ?_, ?_, ?_⟩ <;> decide

/-- Claim C2 (amended): provided each successful leg's result carries a
truthy (non-empty) order id, the compensation branch cancels the lone
successful leg whenever exactly one leg succeeded, and after the attempt
leg 1 is live exactly when leg 2 is live — never exactly one live leg
(gateway-side cancellation failure excluded). -/
theorem compensation_balanced (r1 r2 : OrderResult)
    (h1 : r1.success = true → pyTruthy r1.order_id = true)
    (h2 : r2.success = true → pyTruthy r2.order_id = true) :
    ((r1.success = true ∧ r2.success = false) →
        (compensationCancels r1 r2).1 = true)
    ∧ ((r2.success = true ∧ r1.success = false) →
        (compensationCancels r1 r2).2 = true)
    ∧ legLive r1 (compensationCancels r1 r2).1 =
        legLive r2 (compensationCancels r1 r2).2 := by
  obtain ⟨s1, o1⟩ := r1
  obtain ⟨s2, o2⟩ := r2
  cases s1 <;> cases s2 <;>
    simp_all [compensationCancels, legLive]

/-- Scenario S6 of the spec: leg 1 returns order id `"A"`, leg 2 fails;
the dispatcher cancels leg 1 and no leg stays live. -/
theorem compensation_balanced_witness :
    ((OrderResult.mk true (some "A")).success = true →
        pyTruthy (OrderResult.mk true (some "A")).order_id = true) ∧
    ((OrderResult.mk false none).success = true →
        pyTruthy (OrderResult.mk false none).order_id = true) ∧
    (((OrderResult.mk true (some "A")).success = true ∧
        (OrderResult.mk false none).success = false) →
      (compensationCancels ⟨true, some "A"⟩ ⟨false, none⟩).1 = true) ∧
    legLive ⟨true, some "A"⟩ (compensationCancels ⟨true, some "A"⟩ ⟨false, none⟩).1 =
      legLive ⟨false, none⟩ (compensationCancels ⟨true, some "A"⟩ ⟨false, none⟩).2 :=
  ⟨fun _ => by decide, fun h => absurd h (by decide),
   (compensation_balanced ⟨true, some "A"⟩ ⟨false, none⟩
      (fun _ => by decide) (fun h => absurd h (by decide))).1,
   (compensation_balanced ⟨true, some "A"⟩ ⟨false, none⟩
      (fun _ => by decide) (fun h => absurd h (by decide))).2.2⟩

theorem pyUpper_sell : pyUpper "SELL" = "SELL" := by decide

theorem pyLower_yes_label : pyLower "Yes" = "yes" := by decide

theorem pyLower_no_label : pyLower "No" = "no" := by decide

/-- A cache holding one book for token `"T"` (single ask level, size 5,
timestamp 0), primed through `apply_snapshot`. -/
def deltaNoopCache : BookCache :=
  BookCache.apply_snapshot ⟨[]⟩ "T" [] [(23/50, 5)] 0

/-- Claim C8 (counterexample): on a token already in the cache, a delta whose
single change has size 0 at a price key absent from the targeted ladder does
NOT leave the book state equal to the state before the call: `apply_delta`
unconditionally refreshes `updated_at`. -/
theorem delta_absent_zero_cex :
    (DeltaChange.mk (3/4) "SELL" 0).size = 0 ∧
    alGet deltaNoopCache.books "T" =
      some { bids := [], asks := [(23/50, 5)], updated_at := 0 } ∧
    alGet ({ bids := [], asks := [(23/50, 5)], updated_at := (0:ℚ) }
      : BookState).asks (3/4) = none ∧
    BookCache.apply_delta deltaNoopCache "T" [⟨3/4, "SELL", 0⟩] 7 ≠ deltaNoopCache := by
  refine ⟨rfl, ?_, ?_, ?_⟩
  · norm_num [deltaNoopCache, BookCache.apply_snapshot, snapLadder, alSet, alGet]
  · norm_num [alGet]
  · norm_num [deltaNoopCache, BookCache.apply_snapshot, BookCache.apply_delta,
      snapLadder, alSet, alGet, applyChange, alDel, pyUpper_sell]

/-- Claim C8 (amended): on a token already in the cache, a delta whose single
change has size 0 at a price key absent from the targeted ladder leaves both
ladders and the set of cached tokens unchanged; the only effect is that the
book's `updated_at` is set to the current clock reading. -/
theorem delta_absent_zero_ladders (c : BookCache) (tok : String) (bk : BookState)
    (ch : DeltaChange) (now : ℚ)
    (hb : alGet c.books tok = some bk) (hz : ch.size = 0)
    (ha : (if pyUpper ch.side = "BUY" then alGet bk.bids ch.price
           else alGet bk.asks ch.price) = none) :
    c.apply_delta tok [ch] now =
      ⟨alSet c.books tok { bk with updated_at := now }⟩ := by
  unfold BookCache.apply_delta
  rw [hb]
  simp only [List.foldl_cons, List.foldl_nil]
  by_cases hs : pyUpper ch.side = "BUY"
  · rw [if_pos hs] at ha
    unfold applyChange
    rw [if_pos hs, if_pos hz, alDel_of_alGet_none ha]
  · rw [if_neg hs] at ha
    unfold applyChange
    rw [if_neg hs, if_pos hz, alDel_of_alGet_none ha]

/-- Scenario for the amended C8 at a concrete input: the size-0 delta at the
absent ask key `3/4` only refreshes the timestamp of `"T"`. -/
theorem delta_absent_zero_ladders_witness :
    alGet deltaNoopCache.books "T" =
      some { bids := [], asks := [(23/50, 5)], updated_at := 0 } ∧
    (DeltaChange.mk (3/4) "SELL" 0).size = 0 ∧
    (if pyUpper "SELL" = "BUY"
     then alGet ({ bids := [], asks := [(23/50, 5)], updated_at := (0:ℚ) }
       : BookState).bids (3/4)
     else alGet ({ bids := [], asks := [(23/50, 5)], updated_at := (0:ℚ) }
       : BookState).asks (3/4)) = none ∧
    BookCache.apply_delta deltaNoopCache "T" [⟨3/4, "SELL", 0⟩] 7 =
      ⟨alSet deltaNoopCache.books "T"
        { bids := [], asks := [(23/50, 5)], updated_at := 7 }⟩ :=
  ⟨by norm_num [deltaNoopCache, BookCache.apply_snapshot, snapLadder, alSet, alGet],
   rfl,
   by norm_num [alGet, pyUpper_sell],
   delta_absent_zero_ladders deltaNoopCache "T"
     { bids := [], asks := [(23/50, 5)], updated_at := 0 } ⟨3/4, "SELL", 0⟩ 7
     (by norm_num [deltaNoopCache, BookCache.apply_snapshot, snapLadder, alSet, alGet])
     rfl
     (by norm_num [alGet, pyUpper_sell])⟩

/-- Scenario S1 cache: snapshots `asks=[(0.40, 100)]` for `"Y1"` and
`asks=[(0.45, 100)]` for `"N1"`. -/
def s1cache : BookCache :=
  (BookCache.apply_snapshot ⟨[]⟩ "Y1" [] [(2/5, 100)] 0).apply_snapshot
    "N1" [] [(9/20, 100)] 1

def s1market : Market := ⟨"m1", "q", none, none, []⟩

/-- Claim C1: `check_arb_from_cache` returns `None` when either best ask is
missing; returns `None` when the net spread
`(1 - yes_ask - no_ask) - fee_rate*(yes_ask + no_ask)` is below the
configured minimum spread; otherwise returns the opportunity populated by
the spec formulas; and at `yes_ask = 0.40`, `no_ask = 0.45`,
`fee_rate = 0.02`, `min_spread = 0.02` it returns the opportunity with
`raw_spread = 0.15`, `net_spread = 0.133`, the fee cost being `0.017`. -/
theorem arb_detector_spec (m : Market) (ytid ntid : String) (c : BookCache)
    (fee ms ya na : ℚ) :
    ((c.best_ask ytid = none ∨ c.best_ask ntid = none) →
        check_arb_from_cache m ytid ntid c fee ms = none)
    ∧ (c.best_ask ytid = some ya → c.best_ask ntid = some na →
        (1 - ya - na) - fee * (ya + na) < ms →
        check_arb_from_cache m ytid ntid c fee ms = none)
    ∧ (c.best_ask ytid = some ya → c.best_ask ntid = some na →
        ¬((1 - ya - na) - fee * (ya + na) < ms) →
        check_arb_from_cache m ytid ntid c fee ms = some
          { market_id := m.id
            question := m.question
            yes_token_id := ytid
            no_token_id := ntid
            yes_ask := ya
            no_ask := na
            raw_spread := 1 - ya - na
            net_spread := (1 - ya - na) - fee * (ya + na)
            expected_profit_pct :=
              ((1 - ya - na) - fee * (ya + na)) / (ya + na + fee * (ya + na)) * 100 })
    ∧ (check_arb_from_cache s1market "Y1" "N1" s1cache POLYMARKET_FEE ARB_MIN_SPREAD =
        some { market_id := "m1", question := "q", yes_token_id := "Y1",
               no_token_id := "N1", yes_ask := 2/5, no_ask := 9/20,
               raw_spread := 3/20, net_spread := 133/1000,
               expected_profit_pct := 13300/867 }
       ∧ POLYMARKET_FEE * (2/5 + 9/20) = 17/1000
       ∧ (3:ℚ)/20 - 17/1000 = 133/1000) := by
  refine ⟨?_, ?_, ?_, ?_, ?_, ?_⟩
  · intro h
    unfold check_arb_from_cache
    rcases h with h | h
    · cases hn : c.best_ask ntid <;> simp [h, hn]
    · cases hy : c.best_ask ytid <;> simp [h, hy]
  · intro hy hn hlt
    unfold check_arb_from_cache
    rw [hy, hn]
    simp only [if_pos hlt]
  · intro hy hn hge
    unfold check_arb_from_cache
    rw [hy, hn]
    simp only [if_neg hge]
  · have hy : s1cache.best_ask "Y1" = some (2/5) := rfl
    have hn : s1cache.best_ask "N1" = some (9/20) := rfl
    rw [check_arb_from_cache, hy, hn]
    norm_num [s1market, POLYMARKET_FEE, ARB_MIN_SPREAD]
  · norm_num [POLYMARKET_FEE]
  · norm_num

/-- Scenario S2 of the spec exercises the below-threshold branch of C1:
asks `0.51`/`0.51` give `raw_spread = -0.02` and the detector returns
`None`; the S1 values exercise the opportunity branch. -/
theorem arb_detector_spec_witness :
    ((BookCache.apply_snapshot (BookCache.apply_snapshot ⟨[]⟩ "Y2" [] [(51/100, 100)] 0)
        "N2" [] [(51/100, 100)] 0).best_ask "Y2" = some (51/100)) ∧
    ((BookCache.apply_snapshot (BookCache.apply_snapshot ⟨[]⟩ "Y2" [] [(51/100, 100)] 0)
        "N2" [] [(51/100, 100)] 0).best_ask "N2" = some (51/100)) ∧
    ((1:ℚ) - 51/100 - 51/100) - POLYMARKET_FEE * (51/100 + 51/100) < ARB_MIN_SPREAD ∧
    check_arb_from_cache s1market "Y2" "N2"
      (BookCache.apply_snapshot (BookCache.apply_snapshot ⟨[]⟩ "Y2" [] [(51/100, 100)] 0)
        "N2" [] [(51/100, 100)] 0) POLYMARKET_FEE ARB_MIN_SPREAD = none :=
  ⟨rfl, rfl,
   by norm_num [POLYMARKET_FEE, ARB_MIN_SPREAD],
   (arb_detector_spec s1market "Y2" "N2"
      (BookCache.apply_snapshot (BookCache.apply_snapshot ⟨[]⟩ "Y2" [] [(51/100, 100)] 0)
        "N2" [] [(51/100, 100)] 0) POLYMARKET_FEE ARB_MIN_SPREAD (51/100) (51/100)).2.1
     rfl rfl (by norm_num [POLYMARKET_FEE, ARB_MIN_SPREAD])⟩

/-! ## The ladder invariant (claim C4) -/

/-- A well-formed input snapshot level: whenever its size passes the
positive-size filter, its price lies in the open unit interval. -/
def GoodEntry (e : ℚ × ℚ) : Prop := 0 < e.2 → 0 < e.1 ∧ e.1 < 1

/-- A well-formed input delta change: non-negative size, and a price in the
open unit interval whenever the change is a write (size nonzero). -/
def GoodChange (ch : DeltaChange) : Prop :=
  0 ≤ ch.size ∧ (ch.size ≠ 0 → 0 < ch.price ∧ ch.price < 1)

/-- Well-formedness of a cache write's input data. -/
def GoodOp : CacheOp → Prop
  | .snapshot _ bids asks _ =>
    (∀ e ∈ bids, GoodEntry e) ∧ (∀ e ∈ asks, GoodEntry e)
  | .delta _ chs _ => ∀ ch ∈ chs, GoodChange ch

/-- Every stored level has positive size and a price in the open unit
interval. -/
def GoodLadder (L : PriceLadder) : Prop :=
  ∀ e ∈ L, 0 < e.2 ∧ 0 < e.1 ∧ e.1 < 1

/-- The claimed cache invariant: every level of every cached book's two
ladders has positive size and price strictly between 0 and 1. -/
def GoodCache (c : BookCache) : Prop :=
  ∀ tok bk, alGet c.books tok = some bk → GoodLadder bk.bids ∧ GoodLadder bk.asks

theorem goodLadder_alSet {L : PriceLadder} {p s : ℚ}
    (hL : GoodLadder L) (hs : 0 < s) (hp0 : 0 < p) (hp1 : p < 1) :
    GoodLadder (alSet L p s) := by
  intro e he
  rcases mem_alSet he with rfl | he
  · exact ⟨hs, hp0, hp1⟩
  · exact hL e he

theorem goodLadder_alDel {L : PriceLadder} {p : ℚ} (hL : GoodLadder L) :
    GoodLadder (alDel L p) :=
  fun e he => hL e (mem_alDel he)

theorem goodLadder_snapLadder {entries : List (ℚ × ℚ)}
    (h : ∀ e ∈ entries, GoodEntry e) : GoodLadder (snapLadder entries) := by
  have key : ∀ (es : List (ℚ × ℚ)) (acc : PriceLadder),
      (∀ e ∈ es, GoodEntry e) → GoodLadder acc →
      GoodLadder (es.foldl (fun m e => if 0 < e.2 then alSet m e.1 e.2 else m) acc) := by
    intro es
    induction es with
    | nil => intro acc _ hacc; exact hacc
    | cons e rest ih =>
      intro acc hes hacc
      simp only [List.foldl_cons]
      refine ih _ (fun x hx => hes x (List.mem_cons_of_mem e hx)) ?_
      by_cases hse : 0 < e.2
      · rw [if_pos hse]
        obtain ⟨hp0, hp1⟩ := hes e (List.mem_cons_self e rest) hse
        exact goodLadder_alSet hacc hse hp0 hp1
      · rw [if_neg hse]; exact hacc
  exact key entries [] h (by intro e he; simp at he)

theorem goodLadders_applyChange {bk : BookState} {ch : DeltaChange}
    (hb : GoodLadder bk.bids) (ha : GoodLadder bk.asks) (hch : GoodChange ch) :
    GoodLadder (applyChange bk ch).bids ∧ GoodLadder (applyChange bk ch).asks := by
  obtain ⟨hsz, hpr⟩ := hch
  unfold applyChange
  by_cases hs : pyUpper ch.side = "BUY" <;> [rw [if_pos hs]; rw [if_neg hs]] <;>
    by_cases hz : ch.size = 0
  · rw [if_pos hz]
    exact ⟨goodLadder_alDel hb, ha⟩
  · rw [if_neg hz]
    obtain ⟨hp0, hp1⟩ := hpr hz
    exact ⟨goodLadder_alSet hb (lt_of_le_of_ne hsz (Ne.symm hz)) hp0 hp1, ha⟩
  · rw [if_pos hz]
    exact ⟨hb, goodLadder_alDel ha⟩
  · rw [if_neg hz]
    obtain ⟨hp0, hp1⟩ := hpr hz
    exact ⟨hb, goodLadder_alSet ha (lt_of_le_of_ne hsz (Ne.symm hz)) hp0 hp1⟩

theorem goodLadders_foldChanges {bk : BookState} {chs : List DeltaChange}
    (hb : GoodLadder bk.bids) (ha : GoodLadder bk.asks)
    (hch : ∀ ch ∈ chs, GoodChange ch) :
    GoodLadder (chs.foldl applyChange bk).bids ∧
      GoodLadder (chs.foldl applyChange bk).asks := by
  induction chs generalizing bk with
  | nil => exact ⟨hb, ha⟩
  | cons ch rest ih =>
    simp only [List.foldl_cons]
    obtain ⟨hb', ha'⟩ :=
      goodLadders_applyChange hb ha (hch ch (List.mem_cons_self ch rest))
    exact ih hb' ha' (fun x hx => hch x (List.mem_cons_of_mem ch hx))

theorem goodCache_step {c : BookCache} {op : CacheOp}
    (hc : GoodCache c) (hop : GoodOp op) : GoodCache (cacheStep c op) := by
  cases op with
  | snapshot tok bids asks now =>
    obtain ⟨hbids, hasks⟩ := hop
    intro t bk hbk
    simp only [cacheStep, BookCache.apply_snapshot] at hbk
    rw [alGet_alSet] at hbk
    by_cases ht : tok = t
    · rw [if_pos ht] at hbk
      cases Option.some.inj hbk
      exact ⟨goodLadder_snapLadder hbids, goodLadder_snapLadder hasks⟩
    · rw [if_neg ht] at hbk
      exact hc t bk hbk
  | delta tok chs now =>
    intro t bk hbk
    simp only [cacheStep, BookCache.apply_delta] at hbk
    cases hget : alGet c.books tok with
    | none => rw [hget] at hbk; exact hc t bk hbk
    | some bk0 =>
      rw [hget] at hbk
      simp only at hbk
      rw [alGet_alSet] at hbk
      by_cases ht : tok = t
      · rw [if_pos ht] at hbk
        cases Option.some.inj hbk
        obtain ⟨h1, h2⟩ := hc tok bk0 hget
        exact goodLadders_foldChanges h1 h2 hop
      · rw [if_neg ht] at hbk
        exact hc t bk hbk

/-- The trace of write operations exhibiting the violation: a snapshot with
a bid priced at 1.5 and a delta writing a negative size. -/
def badOps : List CacheOp :=
  [.snapshot "T" [(3/2, 5)] [(1/2, 5)] 0, .delta "T" [⟨1/2, "SELL", -1⟩] 1]

/-- Claim C4 (counterexample): the invariant does not hold over all
reachable states — a snapshot stores price keys unchecked (here a bid at
price 1.5), and a delta with negative size stores that size (here -1), so
the cache reached by `badOps` contains a level with `p ≥ 1` and a level
with `s ≤ 0`. -/
theorem cache_invariant_cex : ¬ GoodCache (runOps badOps) := by
  intro h
  have hb : alGet (runOps badOps).books "T" =
      some { bids := [(3/2, 5)], asks := [(1/2, -1)], updated_at := 1 } := by
    norm_num [runOps, badOps, cacheStep, BookCache.apply_snapshot,
      BookCache.apply_delta, snapLadder, alSet, alGet, applyChange, alDel,
      pyUpper_sell]
    simp
  have hbad := (h "T" _ hb).1 (3/2, 5) (by simp)
  have : (3:ℚ)/2 < 1 := hbad.2.2
  norm_num at this

/-- Claim C4 (amended): for every cache state reachable by a sequence of
`apply_snapshot` and `apply_delta` operations whose inputs are well-formed —
snapshot levels that pass the positive-size filter have prices in (0,1), and
delta changes have non-negative sizes with prices in (0,1) when nonzero —
every stored level `(p, s)` of every cached book satisfies `s > 0` and
`0 < p < 1`. -/
theorem cache_invariant_good_inputs (ops : List CacheOp)
    (h : ∀ op ∈ ops, GoodOp op) : GoodCache (runOps ops) := by
  have key : ∀ (l : List CacheOp) (c : BookCache),
      GoodCache c → (∀ op ∈ l, GoodOp op) → GoodCache (l.foldl cacheStep c) := by
    intro l
    induction l with
    | nil => intro c hc _; exact hc
    | cons op rest ih =>
      intro c hc hops
      simp only [List.foldl_cons]
      exact ih _ (goodCache_step hc (hops op (List.mem_cons_self op rest)))
        (fun x hx => hops x (List.mem_cons_of_mem op hx))
  refine key ops ⟨[]⟩ ?_ h
  intro tok bk hbk
  simp [alGet] at hbk

/-- The S1/S4-style trace with well-formed inputs: the resulting cache
satisfies the invariant. -/
theorem cache_invariant_good_inputs_witness :
    (∀ op ∈ [CacheOp.snapshot "T" [(1/2, 3)] [(23/50, 50)] 0,
             CacheOp.delta "T" [⟨23/50, "SELL", 0⟩] 1], GoodOp op) ∧
    GoodCache (runOps [CacheOp.snapshot "T" [(1/2, 3)] [(23/50, 50)] 0,
                       CacheOp.delta "T" [⟨23/50, "SELL", 0⟩] 1]) :=
  ⟨by norm_num [GoodOp, GoodEntry, GoodChange],
   cache_invariant_good_inputs _ (by norm_num [GoodOp, GoodEntry, GoodChange])⟩

theorem on_price_update_cases (R : TokenRegistry) (fee ms : ℚ)
    (acted : List (String × ℚ)) (now : ℚ) (tid : String) (c : BookCache) :
    on_price_update R fee ms acted now tid c = (acted, none)
    ∨ ∃ fd, on_price_update R fee ms acted now tid c =
          (alSet acted fd.market_id now, some fd)
        ∧ ¬(now - (alGet acted fd.market_id).getD 0 < COOLDOWN_S) := by
  unfold on_price_update
  repeat' split
  all_goals first
    | exact Or.inl rfl
    | exact Or.inr ⟨⟨_, _, _, _⟩, rfl, by assumption⟩

theorem fire_gap (R : TokenRegistry) (fee ms : ℚ) :
    ∀ (evs : List WsEvent) (acted : List (String × ℚ)) (k : String) (t : ℚ),
      alGet acted k = some t →
      ∀ p ∈ runCallbacks R fee ms acted evs, p.2.market_id = k →
        t + COOLDOWN_S ≤ p.1.now := by
  intro evs
  induction evs with
  | nil =>
    intro acted k t _ p hp
    simp [runCallbacks] at hp
  | cons e rest ih =>
    intro acted k t hk p hp hpk
    rcases on_price_update_cases R fee ms acted e.now e.token_id e.cache with
      hc | ⟨fd, heq, hcool⟩
    · simp only [runCallbacks] at hp
      rw [hc] at hp
      simp only [List.nil_append] at hp
      exact ih acted k t hk p hp hpk
    · simp only [runCallbacks] at hp
      rw [heq] at hp
      simp only [List.cons_append, List.nil_append] at hp
      rcases List.mem_cons.mp hp with rfl | hp
      · have hpk' : fd.market_id = k := hpk
        rw [hpk', hk] at hcool
        have : ¬ (e.now - t < COOLDOWN_S) := by simpa using hcool
        have := not_lt.mp this
        linarith
      · by_cases hfk : fd.market_id = k
        · have hset : alGet (alSet acted fd.market_id e.now) k = some e.now := by
            rw [alGet_alSet, if_pos hfk]
          have h2 := ih _ k e.now hset p hp hpk
          rw [hfk, hk] at hcool
          have hec : ¬ (e.now - t < COOLDOWN_S) := by simpa using hcool
          have hC : (0:ℚ) ≤ COOLDOWN_S := by norm_num [COOLDOWN_S]
          have := not_lt.mp hec
          linarith
        · have hset : alGet (alSet acted fd.market_id e.now) k = alGet acted k := by
            rw [alGet_alSet, if_neg hfk]
          exact ih _ k t (by rw [hset]; exact hk) p hp hpk

/-- Claim C5: in the feed-driven dispatcher, for any single market no two
dispatch firings occur within `COOLDOWN_S` of each other: along any stream
of updates, any two firings carrying the same market id are at least the
cooldown apart (an arbitrage-positive update inside the window is discarded
at the debounce step, before any order is placed). -/
theorem cooldown_spacing (R : TokenRegistry) (fee ms : ℚ)
    (acted : List (String × ℚ)) (evs : List WsEvent) :
    List.Pairwise (fun p q : WsEvent × FireDecision =>
        p.2.market_id = q.2.market_id → p.1.now + COOLDOWN_S ≤ q.1.now)
      (runCallbacks R fee ms acted evs) := by
  induction evs generalizing acted with
  | nil => simp [runCallbacks]
  | cons e rest ih =>
    rcases on_price_update_cases R fee ms acted e.now e.token_id e.cache with
      hc | ⟨fd, heq, _⟩
    · simp only [runCallbacks]
      rw [hc]
      simpa using ih acted
    · simp only [runCallbacks]
      rw [heq]
      simp only [List.cons_append, List.nil_append]
      refine List.Pairwise.cons ?_ (ih _)
      intro q hq hqk
      have hset : alGet (alSet acted fd.market_id e.now) fd.market_id =
          some e.now := by
        rw [alGet_alSet, if_pos rfl]
      exact fire_gap R fee ms rest _ fd.market_id e.now hset q hq hqk.symm

/-! ## Sibling involution (claim C6) -/

/-- The two tokens a market record contributes to the registry
(empty when the record is skipped). -/
def tokList (m : Market) : List String :=
  if (extract_token_ids m).1 = "" ∨ (extract_token_ids m).2 = "" then []
  else [(extract_token_ids m).1, (extract_token_ids m).2]

/-- The pair map is an involution on its domain. -/
def InvolutivePairs (P : List (String × String)) : Prop :=
  ∀ t s, alGet P t = some s → alGet P s = some t

theorem pair_insert_invol {P : List (String × String)} {y n : String}
    (hP : InvolutivePairs P) (hy : alGet P y = none) (hn : alGet P n = none) :
    InvolutivePairs (alSet (alSet P y n) n y) := by
  intro t s hts
  rw [alGet_alSet] at hts
  by_cases hnt : n = t
  · rw [if_pos hnt] at hts
    obtain rfl : y = s := Option.some.inj hts
    rw [alGet_alSet]
    by_cases hny : n = y
    · rw [if_pos hny, ← hny, hnt]
    · rw [if_neg hny, alGet_alSet, if_pos rfl, hnt]
  · rw [if_neg hnt, alGet_alSet] at hts
    by_cases hyt : y = t
    · rw [if_pos hyt] at hts
      obtain rfl : n = s := Option.some.inj hts
      rw [alGet_alSet, if_pos rfl, hyt]
    · rw [if_neg hyt] at hts
      have hst := hP t s hts
      rw [alGet_alSet]
      by_cases hns : n = s
      · rw [← hns] at hst
        rw [hn] at hst
        exact Option.noConfusion hst
      · rw [if_neg hns, alGet_alSet]
        by_cases hys : y = s
        · rw [← hys] at hst
          rw [hy] at hst
          exact Option.noConfusion hst
        · rw [if_neg hys]
          exact hst

theorem pair_insert_domain {P : List (String × String)} {y n a : String} {s : String}
    (h : alGet (alSet (alSet P y n) n y) a = some s) :
    a = y ∨ a = n ∨ alGet P a = some s := by
  rw [alGet_alSet] at h
  by_cases hna : n = a
  · exact Or.inr (Or.inl hna.symm)
  · rw [if_neg hna, alGet_alSet] at h
    by_cases hya : y = a
    · exact Or.inl hya.symm
    · rw [if_neg hya] at h
      exact Or.inr (Or.inr h)

theorem registerMarket_pair_of_skip {R : TokenRegistry} {m : Market}
    (h : tokList m = []) :
    (registerMarket R m).token_to_pair = R.token_to_pair := by
  unfold registerMarket
  unfold tokList at h
  by_cases hc : (extract_token_ids m).1 = "" ∨ (extract_token_ids m).2 = ""
  · rw [if_pos hc]
  · rw [if_neg hc] at h
    exact absurd h (by simp)

theorem registerMarket_pair_of_keep {R : TokenRegistry} {m : Market}
    (h : ¬ ((extract_token_ids m).1 = "" ∨ (extract_token_ids m).2 = "")) :
    (registerMarket R m).token_to_pair =
      alSet (alSet R.token_to_pair (extract_token_ids m).1 (extract_token_ids m).2)
        (extract_token_ids m).2 (extract_token_ids m).1 := by
  unfold registerMarket
  rw [if_neg h]

theorem tokList_of_keep {m : Market}
    (h : ¬ ((extract_token_ids m).1 = "" ∨ (extract_token_ids m).2 = "")) :
    tokList m = [(extract_token_ids m).1, (extract_token_ids m).2] := by
  unfold tokList
  rw [if_neg h]

theorem build_pair_invol :
    ∀ (ms : List Market) (R : TokenRegistry),
      InvolutivePairs R.token_to_pair →
      (∀ m ∈ ms, ∀ a ∈ tokList m, alGet R.token_to_pair a = none) →
      List.Pairwise (fun m1 m2 => ∀ a ∈ tokList m1, a ∉ tokList m2) ms →
      InvolutivePairs (ms.foldl registerMarket R).token_to_pair := by
  intro ms
  induction ms with
  | nil => intro R hR _ _; exact hR
  | cons m rest ih =>
    intro R hR hfresh hpw
    simp only [List.foldl_cons]
    by_cases hc : (extract_token_ids m).1 = "" ∨ (extract_token_ids m).2 = ""
    · have hskip : tokList m = [] := by unfold tokList; rw [if_pos hc]
      refine ih (registerMarket R m) ?_ ?_ (List.Pairwise.sublist (List.sublist_cons_self m rest) hpw)
      · rw [registerMarket_pair_of_skip hskip]; exact hR
      · intro m' hm' a ha
        rw [registerMarket_pair_of_skip hskip]
        exact hfresh m' (List.mem_cons_of_mem m hm') a ha
    · have htl : tokList m = [(extract_token_ids m).1, (extract_token_ids m).2] :=
        tokList_of_keep hc
      have hy : alGet R.token_to_pair (extract_token_ids m).1 = none :=
        hfresh m (List.mem_cons_self m rest) _ (by rw [htl]; exact List.mem_cons_self _ _)
      have hn : alGet R.token_to_pair (extract_token_ids m).2 = none :=
        hfresh m (List.mem_cons_self m rest) _
          (by rw [htl]; exact List.mem_cons_of_mem _ (List.mem_cons_self _ _))
      refine ih (registerMarket R m) ?_ ?_ (List.Pairwise.sublist (List.sublist_cons_self m rest) hpw)
      · rw [registerMarket_pair_of_keep hc]
        exact pair_insert_invol hR hy hn
      · intro m' hm' a ha
        have hnotin : a ∉ tokList m := by
          intro hin
          exact (List.rel_of_pairwise_cons hpw hm') a hin ha
        have hay : ¬ a = (extract_token_ids m).1 := by
          intro h
          refine hnotin ?_
          rw [htl, h]
          exact List.mem_cons_self _ _
        have han : ¬ a = (extract_token_ids m).2 := by
          intro h
          refine hnotin ?_
          rw [htl, h]
          exact List.mem_cons_of_mem _ (List.mem_cons_self _ _)
        rw [registerMarket_pair_of_keep hc]
        cases hget : alGet (alSet (alSet R.token_to_pair (extract_token_ids m).1
            (extract_token_ids m).2) (extract_token_ids m).2 (extract_token_ids m).1) a with
        | none => rfl
        | some s =>
          rcases pair_insert_domain hget with h | h | h
          · exact absurd h hay
          · exact absurd h han
          · rw [hfresh m' (List.mem_cons_of_mem m hm') a ha] at h
            exact Option.noConfusion h

/-- Two legacy-format market records that share token id `"b"`. -/
def overlappingMarkets : List Market :=
  [⟨"m1", "q1", none, none, [⟨"Yes", "a"⟩, ⟨"No", "b"⟩]⟩,
   ⟨"m2", "q2", none, none, [⟨"Yes", "b"⟩, ⟨"No", "c"⟩]⟩]

/-- Claim C6 (counterexample): when two accepted market records share a
token id, the later record overwrites the shared entry and the sibling
lookup is not an involution: here `get_pair("a") = "b"` but
`get_pair("b") = "c" ≠ "a"` (the source calls the lookup `get_pair`; the
spec calls it `get_sibling`). -/
theorem sibling_involution_cex :
    (buildRegistry overlappingMarkets).get_pair "a" = some "b" ∧
    (buildRegistry overlappingMarkets).get_pair "b" = some "c" ∧
    ("c" : String) ≠ "a" := by
  refine ⟨?_, ?_, ?_⟩ <;> decide

/-- Claim C6 (amended): when no token id appears in the extracted pair of
more than one accepted market record — the spec's data model, under which
every market introduces fresh identifiers — the registry's sibling map is
an involution: `get_pair (get_pair t) = t` for every known `t`. -/
theorem sibling_involution_disjoint (markets : List Market)
    (hdisj : List.Pairwise (fun m1 m2 => ∀ a ∈ tokList m1, a ∉ tokList m2) markets) :
    ∀ t s, (buildRegistry markets).get_pair t = some s →
      (buildRegistry markets).get_pair s = some t := by
  have h := build_pair_invol markets emptyRegistry
    (by intro t s h; simp [emptyRegistry, alGet] at h)
    (by intro m _ a _; simp [emptyRegistry, alGet])
    hdisj
  exact fun t s hts => h t s hts

/-- The involution at a concrete registry of one market with tokens
`"a"`/`"b"`. -/
theorem sibling_involution_disjoint_witness :
    List.Pairwise (fun m1 m2 => ∀ a ∈ tokList m1, a ∉ tokList m2)
      [(⟨"m1", "q1", none, none, [⟨"Yes", "a"⟩, ⟨"No", "b"⟩]⟩ : Market)] ∧
    (buildRegistry [⟨"m1", "q1", none, none, [⟨"Yes", "a"⟩, ⟨"No", "b"⟩]⟩]).get_pair
      "a" = some "b" ∧
    (buildRegistry [⟨"m1", "q1", none, none, [⟨"Yes", "a"⟩, ⟨"No", "b"⟩]⟩]).get_pair
      "b" = some "a" :=
  ⟨List.pairwise_singleton _ _, by decide,
   sibling_involution_disjoint _ (List.pairwise_singleton _ _) "a" "b" (by decide)⟩

/-- A paired-list-format market record with no legacy `tokens` field
(`market.get("tokens", []) = []`). -/
def pairedOnlyMarket : Market :=
  ⟨"m10", "q10", some ["Y1", "N1"], some ["Yes", "No"], []⟩

/-- Claim C10: the feed-driven callback resolves YES/NO polarity only from
the market record's legacy `tokens` array; for every record accepted by the
registry in the paired-list `clobTokenIds` format but lacking a `tokens`
field, the callback returns before running the detector — for every cooldown
map, clock reading and cache state (in particular one whose best asks
satisfy the spread condition), no dispatch happens and no state changes. -/
theorem polarity_requires_legacy_tokens (ms : List Market) (m : Market)
    (tid : String) (ids : List String) (fee msp : ℚ)
    (acted : List (String × ℚ)) (now : ℚ) (c : BookCache)
    (hclob : m.clobTokenIds = some ids) (hids : ids ≠ [])
    (htoks : m.tokens = [])
    (hm : (buildRegistry ms).get_market tid = some m) :
    on_price_update (buildRegistry ms) fee msp acted now tid c = (acted, none) := by
  unfold on_price_update
  rw [hm]
  cases hp : (buildRegistry ms).get_pair tid with
  | none => rfl
  | some pid =>
    by_cases hpe : pid = ""
    · simp [hpe]
    · simp [hpe, htoks]

/-- The registry accepts `pairedOnlyMarket` (both token ids extracted from
`clobTokenIds`), the primed cache satisfies the spread condition (the
detector would fire), yet the callback returns without dispatching. -/
theorem polarity_requires_legacy_tokens_witness :
    pairedOnlyMarket.clobTokenIds = some ["Y1", "N1"] ∧
    (["Y1", "N1"] : List String) ≠ [] ∧
    pairedOnlyMarket.tokens = [] ∧
    (buildRegistry [pairedOnlyMarket]).get_market "Y1" = some pairedOnlyMarket ∧
    check_arb_from_cache pairedOnlyMarket "Y1" "N1" s1cache
      POLYMARKET_FEE ARB_MIN_SPREAD ≠ none ∧
    on_price_update (buildRegistry [pairedOnlyMarket]) POLYMARKET_FEE ARB_MIN_SPREAD
      [] 20 "Y1" s1cache = ([], none) :=
  ⟨rfl, by decide, rfl, by decide,
   by
     have hy : s1cache.best_ask "Y1" = some (2/5) := rfl
     have hn : s1cache.best_ask "N1" = some (9/20) := rfl
     rw [check_arb_from_cache, hy, hn]
     norm_num [POLYMARKET_FEE, ARB_MIN_SPREAD]
     simp,
   polarity_requires_legacy_tokens [pairedOnlyMarket] pairedOnlyMarket "Y1"
     ["Y1", "N1"] POLYMARKET_FEE ARB_MIN_SPREAD [] 20 s1cache
     rfl (by decide) rfl (by decide)⟩
